import Mathlib

/-!
Verification development for the usrl-core shared-memory ring library.

The definitions below are a shallow embedding of the C sources:
  * src/core/includes/usrl_core.h   (layout constants and structs)
  * src/core/src/usrl_core.c        (region builder, map, topic lookup)
  * src/core/src/ring_swmr.c        (SWMR publish, subscriber next)
  * src/unnamed/part_006            (MWMR publish, generation-gated)

Machine integers are modelled as Nat with an explicit `% 2^64` (or `% 2^32`)
exactly where the C arithmetic can wrap; where a C expression is guarded so
that it cannot wrap (e.g. `w_head - next` after the `next > w_head` check),
plain Nat arithmetic coincides with the machine arithmetic and is used
directly, with a comment at the definition.
-/

namespace USRL

def U64 : Nat := 2 ^ 64
def U32 : Nat := 2 ^ 32

/-- `USRL_MAGIC` from usrl_core.h: 0x5553524C. -/
def USRL_MAGIC : Nat := 0x5553524C

def USRL_RING_TYPE_SWMR : Nat := 0
def USRL_RING_TYPE_MWMR : Nat := 1

/-- x86-64 System V struct layout: place a field of alignment `a` at the next
offset that is a multiple of `a`. -/
def alignTo (off a : Nat) : Nat := (off + a - 1) / a * a

/-- Size of a C struct whose fields are the given (size, alignment) pairs in
declaration order, with an extra minimum alignment `minAl` (for
`__attribute__((aligned(n)))`; 1 when absent). -/
def structSize (fields : List (Nat × Nat)) (minAl : Nat) : Nat :=
  let r := fields.foldl (fun (acc : Nat × Nat) (f : Nat × Nat) =>
    (alignTo acc.1 f.2 + f.1, max acc.2 f.2)) (0, 1)
  alignTo r.1 (max r.2 minAl)

/-- Offsets of a C struct's fields, in declaration order. -/
def structOffsets (fields : List (Nat × Nat)) : List Nat :=
  (fields.foldl (fun (acc : Nat × List Nat) (f : Nat × Nat) =>
    (alignTo acc.1 f.2 + f.1, acc.2 ++ [alignTo acc.1 f.2])) (0, [])).2

/-- `SlotHeader` fields (usrl_core.h): `atomic_uint_fast64_t seq; uint64_t
timestamp_ns; uint32_t payload_len; uint16_t pub_id; uint16_t _pad;`
(`uint_fast64_t` is 8 bytes / 8-aligned on LP64). -/
def slotHeaderFields : List (Nat × Nat) := [(8,8),(8,8),(4,4),(2,2),(2,2)]

def sizeofSlotHeader : Nat := structSize slotHeaderFields 1

/-- `TopicEntry` fields (usrl_core.h): `char name[64]; uint64_t
ring_desc_offset; uint32_t slot_count; uint32_t slot_size; uint32_t type;`. -/
def topicEntryFields : List (Nat × Nat) := [(64,1),(8,8),(4,4),(4,4),(4,4)]

def sizeofTopicEntry : Nat := structSize topicEntryFields 1

/-- `CoreHeader` fields (usrl_core.h): `uint32_t magic; uint32_t version;
uint64_t mmap_size; uint64_t topic_table_offset; uint32_t topic_count;
uint32_t _pad;`. -/
def coreHeaderFields : List (Nat × Nat) := [(4,4),(4,4),(8,8),(8,8),(4,4),(4,4)]

def sizeofCoreHeader : Nat := structSize coreHeaderFields 1

/-- `RingDesc` fields (usrl_core.h): `uint32_t slot_count; uint32_t slot_size;
uint64_t base_offset; atomic_uint_fast64_t w_head; uint8_t _pad[32];` with
`__attribute__((aligned(64)))`. -/
def ringDescFields : List (Nat × Nat) := [(4,4),(4,4),(8,8),(8,8),(32,1)]

def sizeofRingDesc : Nat := structSize ringDescFields 64

/-- usrl_core.c line 95 and usrl_get_topic line 170: the i-th topic table
entry lives at `topic_table_offset + i * sizeof(TopicEntry)`. -/
def topicEntryOffset (tto i : Nat) : Nat := tto + i * sizeofTopicEntry

/-- `usrl_align_up` (usrl_core.h): `(v + (a - 1)) & ~(a - 1)` in uint64;
`~(a-1)` as a uint64 equals `2^64 - a` for `1 ≤ a ≤ 2^64`. -/
def usrl_align_up (v a : Nat) : Nat := ((v + (a - 1)) % U64) &&& (U64 - a)

/-- `next_power_of_two_u32` (usrl_core.c lines 20-29), uint32 arithmetic;
the final `++v` can wrap, hence the `% 2^32`. -/
def next_power_of_two_u32 (v : Nat) : Nat :=
  if v = 0 then 1
  else
    let v := v - 1
    let v := v ||| (v >>> 1)
    let v := v ||| (v >>> 2)
    let v := v ||| (v >>> 4)
    let v := v ||| (v >>> 8)
    let v := v ||| (v >>> 16)
    (v + 1) % U32

/-- The publish-path slot capacity `d->slot_size - sizeof(SlotHeader)`
(ring_swmr.c line 102, part_006 line 180): uint32 `slot_size` is promoted to
size_t, so the subtraction wraps modulo 2^64 when `slot_size < 24`. -/
def slotCapacity (slot_size : Nat) : Nat := (slot_size + U64 - sizeofSlotHeader) % U64

/-- Slot header contents (the four scalar fields of `SlotHeader`). -/
structure SlotHdr where
  seq : Nat
  timestamp_ns : Nat
  payload_len : Nat
  pub_id : Nat
  deriving DecidableEq, Repr

/-- One slot: its header followed by the payload byte area. -/
structure Slot where
  hdr : SlotHdr
  payload : List Nat
  deriving DecidableEq, Repr

instance : Inhabited Slot := ⟨⟨⟨0, 0, 0, 0⟩, []⟩⟩

/-- A topic's shared ring: the `RingDesc` scalars plus the slot array.
`mask` in the publisher/subscriber handles is always `slot_count - 1`. -/
structure RingState where
  slot_count : Nat
  slot_size : Nat
  w_head : Nat
  slots : List Slot
  deriving DecidableEq, Repr

/-- `memcpy(dst, src, src.length)` into the front of `dst`. -/
def writeBytes (dst src : List Nat) : List Nat := src ++ dst.drop src.length

/-- `(uint32_t)((commit_seq - 1) & mask)` in uint64/uint32 arithmetic; the
`- 1` wraps when `commit_seq = 0`. For power-of-two slot counts the result
is below 2^32, so the uint32 cast is the identity. -/
def seqIndex (commit mask : Nat) : Nat := ((commit + U64 - 1) % U64) &&& mask

/-- `usrl_pub_publish` (ring_swmr.c lines 91-150), with the reservation,
payload/header writes and the release-store of `seq` taken as one atomic
step (SWMR: a single writer per topic).  The null-pointer guard (`-1`) is
outside the embedding. `ts` stands for the `clock_gettime` result. -/
def usrl_pub_publish (st : RingState) (pub_id : Nat) (data : List Nat) (ts : Nat) :
    Int × RingState :=
  if data.length > slotCapacity st.slot_size then (-2, st)
  else
    let old_head := st.w_head
    let commit := (old_head + 1) % U64
    let idx := seqIndex commit (st.slot_count - 1)
    let s := st.slots.getD idx default
    let s2 : Slot :=
      { hdr := { seq := commit, timestamp_ns := ts,
                 payload_len := data.length, pub_id := pub_id },
        payload := writeBytes s.payload data }
    (0, { st with w_head := commit, slots := st.slots.set idx s2 })

/-- The MWMR slot-safety condition (part_006 lines 222-234): the slot is safe
iff `current_seq == 0` or `current_seq / slot_count < commit_seq / slot_count`. -/
def slotSafe (current commit slot_count : Nat) : Bool :=
  current == 0 || current / slot_count < commit / slot_count

/-- The MWMR safety spin (part_006 lines 218-251).  `obs k` is the value the
k-th acquire-load of `hdr->seq` returns (supplied by the environment: other
writers may be storing concurrently).  `iter` counts failed checks as in the
C code; after a failed check the code does `backoff(iter++)` and returns
`-3` when `iter > 100000`, so the loads happen at iterations 0..100000.
`fuel` only makes the recursion structural; `mwmrSpin` supplies enough fuel
that the fuel-exhausted branch is unreachable. -/
def mwmrSpinLoop (obs : Nat → Nat) (slot_count commit : Nat) :
    Nat → Nat → Option Nat
  | _, 0 => none
  | iter, fuel + 1 =>
    if slotSafe (obs iter) commit slot_count then some (obs iter)
    else if iter + 1 > 100000 then none
    else mwmrSpinLoop obs slot_count commit (iter + 1) fuel

def mwmrSpin (obs : Nat → Nat) (slot_count commit : Nat) : Option Nat :=
  mwmrSpinLoop obs slot_count commit 0 100001

/-- `usrl_mwmr_pub_publish` (part_006 lines 169-285).  The fetch-add
reservation happens after the size check; the spin observes the sequence
values `obs k`; on timeout the call returns `-3` with `w_head` already
incremented and the slot untouched.  On success the payload/header writes
and the release-store of `commit_seq` are taken as one step here (the
instruction-level interleaving of these writes is modelled separately by
`applyFineOp`). -/
def usrl_mwmr_pub_publish_obs (st : RingState) (pub_id : Nat) (data : List Nat)
    (ts : Nat) (obs : Nat → Nat) : Int × RingState :=
  if data.length > slotCapacity st.slot_size then (-2, st)
  else
    let old_head := st.w_head
    let commit := (old_head + 1) % U64
    let idx := seqIndex commit (st.slot_count - 1)
    match mwmrSpin obs st.slot_count commit with
    | none => (-3, { st with w_head := commit })
    | some _ =>
      let s := st.slots.getD idx default
      let s2 : Slot :=
        { hdr := { seq := commit, timestamp_ns := ts,
                   payload_len := data.length, pub_id := pub_id },
          payload := writeBytes s.payload data }
      (0, { st with w_head := commit, slots := st.slots.set idx s2 })

/-- MWMR publish when no other writer runs concurrently: every load of
`hdr->seq` returns the slot's resident value. -/
def usrl_mwmr_pub_publish (st : RingState) (pub_id : Nat) (data : List Nat)
    (ts : Nat) : Int × RingState :=
  usrl_mwmr_pub_publish_obs st pub_id data ts
    (fun _ => (st.slots.getD (seqIndex ((st.w_head + 1) % U64) (st.slot_count - 1))
                default).hdr.seq)

/-- What one `usrl_sub_next` call produces: the C return value, the updated
cursor `s->last_seq`, the caller's buffer after the call, and the value
written through `out_pub_id` (`none` when that store was not reached). -/
structure SubResult where
  ret : Int
  last_seq : Nat
  buf : List Nat
  out_pub_id : Option Nat
  deriving DecidableEq, Repr

/-- The tail of `usrl_sub_next` from the slot load onwards (ring_swmr.c lines
256-318), shared by the overrun and non-overrun paths.  `w_head`, `last_seq`
and `next` are the local variables at that point; `slotAt idx` is the slot
contents the loads at lines 267-299 observe, and `postSeqAt idx` the value
of the relaxed reload at line 308 (a concurrent writer may have changed it).
`w_head - d->slot_count + 1` and the comparisons cannot wrap here because
`1 ≤ next ≤ w_head` on entry. -/
def usrl_sub_next_read (slot_count : Nat) (slotAt : Nat → Slot)
    (postSeqAt : Nat → Nat) (w_head last_seq next : Nat) (buf : List Nat) :
    SubResult :=
  let idx := seqIndex next (slot_count - 1)
  let s := slotAt idx
  let seq := s.hdr.seq
  if seq = 0 ∨ seq < next then ⟨0, last_seq, buf, none⟩
  else if seq > next then ⟨0, seq - 1, buf, none⟩
  else
    let payload_len := s.hdr.payload_len
    if payload_len > buf.length then ⟨-3, next, buf, none⟩
    else
      let buf2 := writeBytes buf (s.payload.take payload_len)
      if postSeqAt idx ≠ seq then ⟨0, w_head, buf2, some s.hdr.pub_id⟩
      else ⟨(payload_len : Int), next, buf2, some s.hdr.pub_id⟩

/-- `usrl_sub_next` (ring_swmr.c lines 212-319) as a function of what its
shared-memory loads observe: `w_head1` is the acquire-load at line 224,
`w_head2` the re-load at line 249 (used only when the overrun branch runs),
and `slotAt`/`postSeqAt` as in `usrl_sub_next_read`.  The null guards (`-1`)
are outside the embedding.  `w_head - next` at line 241 cannot wrap because
the line-232 check guarantees `next ≤ w_head`. -/
def usrl_sub_next_obs (slot_count : Nat) (w_head1 w_head2 : Nat)
    (slotAt : Nat → Slot) (postSeqAt : Nat → Nat)
    (last_seq : Nat) (buf : List Nat) : SubResult :=
  let next := (last_seq + 1) % U64
  if next > w_head1 then ⟨0, last_seq, buf, none⟩
  else if w_head1 - next ≥ slot_count then
    let new_start := w_head1 - slot_count + 1
    if new_start > w_head2 then ⟨0, new_start - 1, buf, none⟩
    else usrl_sub_next_read slot_count slotAt postSeqAt w_head2 (new_start - 1)
      new_start buf
  else usrl_sub_next_read slot_count slotAt postSeqAt w_head1 last_seq next buf

/-- `usrl_sub_next` with no writer running concurrently: both `w_head` loads
agree with the ring state and the post-copy `seq` reload returns the value
resident in the slot. -/
def usrl_sub_next (st : RingState) (last_seq : Nat) (buf : List Nat) : SubResult :=
  usrl_sub_next_obs st.slot_count st.w_head st.w_head
    (fun i => st.slots.getD i default)
    (fun i => (st.slots.getD i default).hdr.seq) last_seq buf

/-- The slot array as `usrl_core_init` leaves it (lines 130-136 plus the
region-wide `memset` at line 63): every slot header zeroed and the payload
area zero bytes. -/
def initSlots (slot_count slot_size : Nat) : List Slot :=
  List.replicate slot_count
    ⟨⟨0, 0, 0, 0⟩, List.replicate (slot_size - sizeofSlotHeader) 0⟩

/-- A topic's ring as the builder creates it: `w_head = 0`, all slots zero. -/
def usrl_ring_init (slot_count slot_size : Nat) : RingState :=
  ⟨slot_count, slot_size, 0, initSlots slot_count slot_size⟩

/-- The operations that touch a topic's shared ring after the build.  A
subscriber call carries its private cursor and buffer; it writes nothing to
shared memory (ring_swmr.c: readers only load). -/
inductive RingOp where
  | swmr (pub_id : Nat) (data : List Nat) (ts : Nat)
  | mwmr (pub_id : Nat) (data : List Nat) (ts : Nat)
  | subRead (last_seq : Nat) (buf : List Nat)
  deriving Repr

/-- Effect of one complete operation on the shared ring state. -/
def applyOp (st : RingState) : RingOp → RingState
  | .swmr p d t => (usrl_pub_publish st p d t).2
  | .mwmr p d t => (usrl_mwmr_pub_publish st p d t).2
  | .subRead _ _ => st

def applyOps (st : RingState) (ops : List RingOp) : RingState :=
  ops.foldl applyOp st

/-- An MWMR writer that has reserved a sequence (part_006 line 189) and has
or has not yet passed the slot-safety gate (lines 221-251). -/
structure MwmrWriter where
  commit : Nat
  passed : Bool
  deriving DecidableEq, Repr

/-- Ring plus the set of in-flight MWMR writers, for instruction-level
interleaving of concurrent `usrl_mwmr_pub_publish` calls. -/
structure MwmrFineState where
  ring : RingState
  writers : List MwmrWriter
  deriving DecidableEq, Repr

/-- One shared-memory step of an in-flight MWMR publish:
`reserve` is the fetch-add at part_006 line 189; `gate i` is one iteration
of writer i's safety loop (lines 221-251), marking the writer ready when the
loaded `seq` satisfies `slotSafe`; `store i` is writer i's payload/header
write and release-store of its `commit_seq` (lines 259-280; the payload
memcpy precedes the `seq` store, but only the `seq` field is observed here).
Steps that do not apply (missing writer, gate not passed) leave the state
unchanged. -/
inductive MwmrFineOp where
  | reserve
  | gate (i : Nat)
  | store (i : Nat) (pub_id : Nat) (data : List Nat) (ts : Nat)
  deriving Repr

def applyFineOp (st : MwmrFineState) : MwmrFineOp → MwmrFineState
  | .reserve =>
    let commit := (st.ring.w_head + 1) % U64
    ⟨{ st.ring with w_head := commit }, st.writers ++ [⟨commit, false⟩]⟩
  | .gate i =>
    let w := st.writers.getD i ⟨0, true⟩
    if i < st.writers.length ∧ ¬w.passed then
      let idx := seqIndex w.commit (st.ring.slot_count - 1)
      let cur := (st.ring.slots.getD idx default).hdr.seq
      if slotSafe cur w.commit st.ring.slot_count then
        ⟨st.ring, st.writers.set i ⟨w.commit, true⟩⟩
      else st
    else st
  | .store i pub_id data ts =>
    let w := st.writers.getD i ⟨0, false⟩
    if i < st.writers.length ∧ w.passed then
      let idx := seqIndex w.commit (st.ring.slot_count - 1)
      let s := st.ring.slots.getD idx default
      let s2 : Slot :=
        { hdr := { seq := w.commit, timestamp_ns := ts,
                   payload_len := data.length, pub_id := pub_id },
          payload := writeBytes s.payload data }
      ⟨{ st.ring with slots := st.ring.slots.set idx s2 },
        st.writers.eraseIdx i⟩
    else st

def applyFineOps (st : MwmrFineState) (ops : List MwmrFineOp) : MwmrFineState :=
  ops.foldl applyFineOp st

/-! ### Region builder, map and topic lookup (usrl_core.c) -/

/-- `UsrlTopicConfig` (usrl_core.h): the caller's per-topic request.
`slot_size` is the requested payload size; the slot header is added by the
builder. -/
structure UsrlTopicConfig where
  name : String
  slot_count : Nat
  slot_size : Nat
  type : Nat
  deriving DecidableEq, Repr

/-- `TopicEntry` (usrl_core.h) as written by the builder.  The 64-byte
`char name[64]` holds at most 63 name bytes plus NUL (`strncpy(t->name,
topics[i].name, USRL_MAX_TOPIC_NAME - 1)` at usrl_core.c line 96), modelled
as the string truncated to 63 characters. -/
structure TopicEntry where
  name : String
  ring_desc_offset : Nat
  slot_count : Nat
  slot_size : Nat
  type : Nat
  deriving DecidableEq, Repr

/-- One topic as materialized in the region: its table entry, its ring
descriptor scalars together with the slot array (`RingState`, whose
`w_head` the builder zeroes), and the descriptor's `base_offset`. -/
structure BuiltTopic where
  entry : TopicEntry
  base_offset : Nat
  ring : RingState
  deriving DecidableEq, Repr

/-- The initialized region: `CoreHeader` fields plus the topic table. -/
structure Region where
  magic : Nat
  version : Nat
  mmap_size : Nat
  topic_table_offset : Nat
  topic_count : Nat
  topics : List BuiltTopic
  deriving DecidableEq, Repr

/-- A POSIX shared-memory object: its `st_size` and its contents. -/
structure SharedObj where
  size : Nat
  region : Region
  deriving DecidableEq, Repr

/-- The shared-memory namespace (`shm_open`/`shm_unlink` paths). -/
def ShmFs : Type := String → Option SharedObj

/-- The per-topic body of the builder loop (usrl_core.c lines 91-141):
fill the topic entry, derive the power-of-two slot count and the 8-aligned
slot size (the `(uint32_t)` cast of the 64-bit `usrl_align_up` result
truncates), fill the ring descriptor with `w_head = 0`, zero the slots, and
advance the running slot offset 64-aligned.  Returns `none` on the
out-of-space check at line 123. -/
def buildOneTopic (ring_desc_start i next_free : Nat) (cfg : UsrlTopicConfig)
    (size : Nat) : Option (BuiltTopic × Nat) :=
  let slots_pow2 := next_power_of_two_u32 cfg.slot_count
  let slot_sz_aligned := usrl_align_up (sizeofSlotHeader + cfg.slot_size) 8 % U32
  let entry : TopicEntry :=
    { name := (cfg.name.take 63 : String), ring_desc_offset := ring_desc_start + i * sizeofRingDesc,
      slot_count := slots_pow2, slot_size := slot_sz_aligned, type := cfg.type }
  let total := slots_pow2 * slot_sz_aligned
  if next_free + total > size then none
  else
    some (⟨entry, next_free, usrl_ring_init slots_pow2 slot_sz_aligned⟩,
      usrl_align_up (next_free + total) 64)

/-- The builder loop over the config list.  On out-of-space it returns
`(false, built-so-far)`: the topics already processed are fully materialized
(the failing topic's entry and descriptor were also partially written to the
mapped bytes before the line-123 check fired, but that partially-built
object is observed by no operation modelled here). -/
def buildLoop (size ring_desc_start : Nat) :
    List UsrlTopicConfig → Nat → Nat → Bool × List BuiltTopic
  | [], _, _ => (true, [])
  | cfg :: rest, i, next_free =>
    match buildOneTopic ring_desc_start i next_free cfg size with
    | none => (false, [])
    | some (bt, next_free2) =>
      let r := buildLoop size ring_desc_start rest (i + 1) next_free2
      (r.1, bt :: r.2)

/-- `usrl_core_init` (usrl_core.c lines 33-148).  The argument checks at
line 36 (`count == 0` becomes `topics = []`; the null-pointer cases are
outside the embedding) return `-1`.  The call then `shm_unlink`s any object
already at `path` (line 41) and creates a fresh one with
`shm_open(O_CREAT|O_RDWR|O_EXCL)`, which succeeds because the path was just
unlinked; it never returns `1`.  `ftruncate`/`mmap` failures (`-2`/`-3`) are
OS-error paths outside the embedding.  On the out-of-space check the call
returns `-4` with the partially-written object left at the path (the code
only `munmap`s and `close`s, it does not unlink). -/
def usrl_core_init (fs : ShmFs) (path : String) (size : Nat)
    (topics : List UsrlTopicConfig) : Int × ShmFs :=
  if size < 4096 ∨ topics = [] then (-1, fs)
  else
    let tto := usrl_align_up sizeofCoreHeader 64
    let ring_desc_start := usrl_align_up (tto + sizeofTopicEntry * topics.length) 64
    let slots_start := usrl_align_up (ring_desc_start + sizeofRingDesc * topics.length) 64
    let r := buildLoop size ring_desc_start topics 0 slots_start
    let reg : Region :=
      { magic := USRL_MAGIC, version := 1, mmap_size := size,
        topic_table_offset := tto, topic_count := topics.length, topics := r.2 }
    let fs2 : ShmFs := fun p => if p = path then some ⟨size, reg⟩ else fs p
    if r.1 then (0, fs2) else (-4, fs2)

/-- The result of `mmap` in `usrl_core_map`: the caller sees `size` mapped
bytes starting at the region contents. -/
structure Mapping where
  size : Nat
  region : Region
  deriving DecidableEq, Repr

/-- `usrl_core_map` (usrl_core.c lines 150-161): `shm_open(O_RDWR)` fails
(NULL) when no object exists at the path; otherwise the caller-supplied
`size` is mmapped as-is — the object's own size is never consulted (no
`fstat`), and no header field is validated here. -/
def usrl_core_map (fs : ShmFs) (path : String) (size : Nat) : Option Mapping :=
  match fs path with
  | none => none
  | some obj => some ⟨size, obj.region⟩

/-- `usrl_get_topic` (usrl_core.c lines 163-174): NULL unless
`hdr->magic == USRL_MAGIC`; then a linear scan of the first `topic_count`
table entries comparing names with `strncmp(..., 64)`, which for the
NUL-terminated ≤63-byte stored names is string equality.  The header's
`version` field is not read. -/
def usrl_get_topic (r : Region) (name : String) : Option TopicEntry :=
  if r.magic ≠ USRL_MAGIC then none
  else ((r.topics.map (·.entry)).find? (fun t => t.name == name))

/-- Whether `usrl_sub_next`'s overrun catch-up branch (ring_swmr.c line 241)
runs, given that the line-232 emptiness check already passed. -/
def subJump (slot_count w_head1 last_seq : Nat) : Bool :=
  slot_count ≤ w_head1 - (last_seq + 1) % U64

/-- The value held by the local `w_head` after the overrun branch: the
line-249 re-load when the branch ran, the initial load otherwise. -/
def subEffHead (slot_count w_head1 w_head2 last_seq : Nat) : Nat :=
  if subJump slot_count w_head1 last_seq then w_head2 else w_head1

/-- The value held by the local `next` after the overrun branch. -/
def subEffNext (slot_count w_head1 last_seq : Nat) : Nat :=
  if subJump slot_count w_head1 last_seq then w_head1 - slot_count + 1
  else (last_seq + 1) % U64

end USRL

namespace USRL

/-! ### Helper lemmas -/

theorem land_two_pow_sub_one (x k : Nat) : x &&& (2 ^ k - 1) = x % 2 ^ k := by
  apply Nat.eq_of_testBit_eq
  intro i
  rw [Nat.testBit_and, Nat.testBit_two_pow_sub_one, Nat.testBit_mod_two_pow]
  cases h : x.testBit i <;> simp

theorem slotCapacity_eq {s : Nat} (h24 : sizeofSlotHeader ≤ s) (h : s < U64) :
    slotCapacity s = s - sizeofSlotHeader := by
  unfold slotCapacity
  have h1 : s + U64 - sizeofSlotHeader = (s - sizeofSlotHeader) + U64 := by omega
  rw [h1, Nat.add_mod_right, Nat.mod_eq_of_lt (by omega)]

theorem seqIndex_eq {c : Nat} (h1 : 1 ≤ c) (h2 : c ≤ U64) (m : Nat) :
    seqIndex c m = (c - 1) &&& m := by
  unfold seqIndex
  have h3 : c + U64 - 1 = (c - 1) + U64 := by omega
  rw [h3, Nat.add_mod_right, Nat.mod_eq_of_lt (by omega)]

theorem seqIndex_lt {c k : Nat} (h1 : 1 ≤ c) (h2 : c ≤ U64) :
    seqIndex c (2 ^ k - 1) < 2 ^ k := by
  rw [seqIndex_eq h1 h2, land_two_pow_sub_one]
  exact Nat.mod_lt _ (Nat.pos_pow_of_pos k (by omega))

theorem getD_set_self {l : List Slot} {i : Nat} (h : i < l.length) (a d : Slot) :
    (l.set i a).getD i d = a := by
  simp [List.getD_eq_getElem?_getD, List.getElem?_set_self h]

theorem getD_set_ne {l : List Slot} {i j : Nat} (h : i ≠ j) (a d : Slot) :
    (l.set i a).getD j d = l.getD j d := by
  simp [List.getD_eq_getElem?_getD, List.getElem?_set_ne h]

/-! ### Claims -/

/-- C9 counterexample: `sizeof(TopicEntry)` is 88 bytes (84 bytes of fields
padded to the struct's 8-byte alignment), not 96, so with the topic table at
offset 64 the entry of index 1 starts at 64 + 88 = 152, not 64 + 96 = 160. -/
theorem usrl_C9_counterexample :
    sizeofTopicEntry = 88 ∧ ¬ sizeofTopicEntry = 96 ∧
    topicEntryOffset 64 1 = 152 ∧ ¬ topicEntryOffset 64 1 = 64 + 96 * 1 := by
  decide

/-- C9 amended: the topic table written by build and read by lookup is an
array whose entries each occupy exactly 88 bytes (name[64] at offset 0,
ring_desc_offset u64 at 64, slot_count u32 at 72, slot_size u32 at 76,
type u32 at 80, then 4 bytes of tail padding), so the i-th entry starts at
topic_table_offset + 88·i from the region base. -/
theorem usrl_C9_topic_table_layout :
    structOffsets topicEntryFields = [0, 64, 72, 76, 80] ∧
    sizeofTopicEntry = 88 ∧
    ∀ tto i : Nat, topicEntryOffset tto i = tto + 88 * i := by
  refine ⟨by decide, by decide, fun tto i => ?_⟩
  have h : sizeofTopicEntry = 88 := by decide
  unfold topicEntryOffset
  rw [h]
  omega

set_option maxRecDepth 4000 in
/-- C6: `usrl_core_init` never reports an already-present region: it first
`shm_unlink`s the path and recreates the object, so on a path that already
holds a region it returns 0 (freshly created) — never 1/Exists — and the
prior region is destroyed.  Concretely, with an 8192-byte region holding
topic "old" already at the path, a build of topic "demo" with size 4096
returns 0 and the object afterwards holds the new 4096-byte region. -/
theorem usrl_C6_build_unlinks_existing :
    (∀ fs path size topics, (usrl_core_init fs path size topics).1 ≠ 1) ∧
    (let fs0 : ShmFs := fun p => if p = "/usrl_core" then
        some ⟨8192, ⟨USRL_MAGIC, 1, 8192, 64, 1,
          [⟨⟨"old", 256, 8, 32, 0⟩, 448, usrl_ring_init 8 32⟩]⟩⟩ else none
     let res := usrl_core_init fs0 "/usrl_core" 4096 [⟨"demo", 4, 16, 0⟩]
     res.1 = 0 ∧
     (res.2 "/usrl_core").map (fun o => o.region.mmap_size) = some 4096 ∧
     (fs0 "/usrl_core").map (fun o => o.region.mmap_size) = some 8192 ∧
     (res.2 "/usrl_core").map (fun o => o.region.topics.map (·.entry.name)) =
       some ["demo"]) := by
  constructor
  · intro fs path size topics
    unfold usrl_core_init
    by_cases h : size < 4096 ∨ topics = []
    · simp [h]
    · simp only [if_neg h]
      split <;> simp
  · exact ⟨by decide, by decide, by decide, by decide⟩

/-- C7 counterexample: a topic list whose first config has slot count 0 and
whose two configs share the name "a" is accepted: build returns 0 and
creates the region (slot count 0 is silently rounded up to 1); no
InvalidConfig rejection exists in `usrl_core_init`. -/
theorem usrl_C7_counterexample :
    (usrl_core_init (fun _ => none) "/usrl_core" 4096
      [⟨"a", 0, 8, 0⟩, ⟨"a", 5, 8, 0⟩]).1 = 0 ∧
    ((usrl_core_init (fun _ => none) "/usrl_core" 4096
      [⟨"a", 0, 8, 0⟩, ⟨"a", 5, 8, 0⟩]).2 "/usrl_core").isSome = true := by
  exact ⟨by decide, by decide⟩

/-- C7 amended: build performs no per-topic configuration validation — a
slot count of 0 is rounded up to 1 and duplicate topic names are accepted —
and a requested payload size never exceeds the derived slot size (which is
align_up(header + payload, 8)).  The only argument rejection is `-1`,
returned exactly when size < 4096 or the topic list is empty (with the
filesystem untouched); every other outcome is success (0) or out-of-space
(-4). -/
theorem usrl_C7_build_validation :
    ∀ fs path size topics,
      ((usrl_core_init fs path size topics).1 = -1 ↔ size < 4096 ∨ topics = []) ∧
      ((usrl_core_init fs path size topics).1 = -1 →
        (usrl_core_init fs path size topics).2 = fs) ∧
      ((usrl_core_init fs path size topics).1 ≠ -1 →
        (usrl_core_init fs path size topics).1 = 0 ∨
        (usrl_core_init fs path size topics).1 = -4) := by
  intro fs path size topics
  unfold usrl_core_init
  by_cases h : size < 4096 ∨ topics = []
  · simp [h]
  · simp only [if_neg h]
    split <;> simp [h]

/-- C7 witness: at a concrete in-range input the build outcome is success or
out-of-space, never the claimed InvalidConfig rejection. -/
theorem usrl_C7_build_validation_witness :
    (usrl_core_init (fun _ => none) "/x" 4096 [⟨"t", 4, 16, 0⟩]).1 = 0 ∨
    (usrl_core_init (fun _ => none) "/x" 4096 [⟨"t", 4, 16, 0⟩]).1 = -4 :=
  (usrl_C7_build_validation (fun _ => none) "/x" 4096 [⟨"t", 4, 16, 0⟩]).2.2
    (by decide)

/-- C8 counterexample: attach does not discover the size from the OS and
does not validate the version.  With an 8192-byte object at the path,
`usrl_core_map` called with caller size 4096 maps 4096 bytes (the object's
8192 is never consulted), and `usrl_get_topic` happily serves lookups from
a region whose header version is 999. -/
theorem usrl_C8_counterexample :
    (let r999 : Region := ⟨USRL_MAGIC, 999, 8192, 64, 1,
        [⟨⟨"a", 256, 8, 32, 0⟩, 448, usrl_ring_init 8 32⟩]⟩
     let fs8 : ShmFs := fun p => if p = "/p" then some ⟨8192, r999⟩ else none
     (fs8 "/p").map (·.size) = some 8192 ∧
     (usrl_core_map fs8 "/p" 4096).map (·.size) = some 4096 ∧
     (usrl_get_topic r999 "a").isSome = true) := by
  exact ⟨by decide, by decide, by decide⟩

/-- C8 amended: `usrl_core_map` maps exactly the caller-supplied size
whenever an object exists at the path (the object's own size is not
consulted) and fails only when the path is absent; no header validation
happens at map time.  Topic lookup (`usrl_get_topic`) validates the magic
value — returning NULL on mismatch — but is completely insensitive to the
layout version, which is never checked anywhere. -/
theorem usrl_C8_attach_behavior :
    (∀ fs path size obj, fs path = some obj →
      usrl_core_map fs path size = some ⟨size, obj.region⟩) ∧
    (∀ fs path size, fs path = none → usrl_core_map fs path size = none) ∧
    (∀ r name v, usrl_get_topic { r with version := v } name = usrl_get_topic r name) ∧
    (∀ r name, r.magic ≠ USRL_MAGIC → usrl_get_topic r name = none) := by
  refine ⟨fun fs path size obj h => ?_, fun fs path size h => ?_,
    fun r name v => ?_, fun r name h => ?_⟩
  · unfold usrl_core_map; rw [h]
  · unfold usrl_core_map; rw [h]
  · unfold usrl_get_topic; rfl
  · unfold usrl_get_topic; simp [h]

/-- C8 witness: the mapping of an existing 8192-byte object with caller
size 4096 comes back with size 4096. -/
theorem usrl_C8_attach_behavior_witness :
    usrl_core_map
      (fun p => if p = "/p" then some ⟨8192, ⟨USRL_MAGIC, 1, 8192, 64, 0, []⟩⟩
        else none) "/p" 4096 =
      some ⟨4096, ⟨USRL_MAGIC, 1, 8192, 64, 0, []⟩⟩ :=
  usrl_C8_attach_behavior.1
    (fun p => if p = "/p" then some ⟨8192, ⟨USRL_MAGIC, 1, 8192, 64, 0, []⟩⟩
      else none) "/p" 4096 ⟨8192, ⟨USRL_MAGIC, 1, 8192, 64, 0, []⟩⟩ (by decide)

/-- C1: round-trip.  For every topic ring and every payload of length
L ≤ slot_size − sizeof(SlotHeader), a successful `usrl_pub_publish` followed
by `usrl_sub_next` from a cursor at that sequence with a buffer of at least
L bytes returns exactly L, delivers exactly the published L bytes, reports
the publisher's id through `out_pub_id`, and advances the cursor to the
published sequence.  (Hypotheses: the ring is as the builder creates it —
power-of-two slot count, slot array of that length, slot_size a uint32 of at
least a header — and the 64-bit sequence counter does not wrap.) -/
theorem usrl_C1_roundtrip
    (st : RingState) (pub_id : Nat) (data : List Nat) (ts : Nat)
    (buf : List Nat) (k : Nat)
    (hk : st.slot_count = 2 ^ k)
    (hlen : st.slots.length = st.slot_count)
    (h24 : sizeofSlotHeader ≤ st.slot_size)
    (hss : st.slot_size < U32)
    (hfit : data.length ≤ st.slot_size - sizeofSlotHeader)
    (hw : st.w_head + 1 < U64)
    (hbuf : data.length ≤ buf.length) :
    (usrl_pub_publish st pub_id data ts).1 = 0 ∧
    (usrl_sub_next (usrl_pub_publish st pub_id data ts).2 st.w_head buf).ret
      = (data.length : Int) ∧
    (usrl_sub_next (usrl_pub_publish st pub_id data ts).2 st.w_head buf).buf.take
      data.length = data ∧
    (usrl_sub_next (usrl_pub_publish st pub_id data ts).2 st.w_head buf).out_pub_id
      = some pub_id ∧
    (usrl_sub_next (usrl_pub_publish st pub_id data ts).2 st.w_head buf).last_seq
      = st.w_head + 1 := by
  obtain ⟨sc, ss, w, slots⟩ := st
  simp only at hk hlen h24 hss hfit hw
  have hU : U32 < U64 := by norm_num [U32, U64]
  have hcap : slotCapacity ss = ss - sizeofSlotHeader :=
    slotCapacity_eq h24 (lt_trans hss hU)
  have hnotlarge : ¬ data.length > slotCapacity ss := by
    rw [hcap]; omega
  have hmod : (w + 1) % U64 = w + 1 := Nat.mod_eq_of_lt hw
  have hidxlt : seqIndex (w + 1) (sc - 1) < slots.length := by
    rw [hlen, hk]
    exact seqIndex_lt (by omega) (by omega)
  have hpub : usrl_pub_publish ⟨sc, ss, w, slots⟩ pub_id data ts =
      (0, ⟨sc, ss, w + 1,
        slots.set (seqIndex (w + 1) (sc - 1))
          ⟨⟨w + 1, ts, data.length, pub_id⟩,
            writeBytes (slots.getD (seqIndex (w + 1) (sc - 1)) default).payload data⟩⟩) := by
    unfold usrl_pub_publish
    dsimp only
    rw [if_neg hnotlarge]
    simp only [hmod]
  rw [hpub]
  dsimp only
  have hread : usrl_sub_next
      ⟨sc, ss, w + 1,
        slots.set (seqIndex (w + 1) (sc - 1))
          ⟨⟨w + 1, ts, data.length, pub_id⟩,
            writeBytes (slots.getD (seqIndex (w + 1) (sc - 1)) default).payload data⟩⟩
      w buf =
      ⟨(data.length : Int), w + 1, data ++ buf.drop data.length, some pub_id⟩ := by
    unfold usrl_sub_next usrl_sub_next_obs
    dsimp only
    simp only [hmod]
    rw [if_neg (by omega : ¬ w + 1 > w + 1)]
    rw [if_neg (by rw [hk]; have : (0:Nat) < 2 ^ k := Nat.pos_pow_of_pos k (by omega); omega
      : ¬ w + 1 - (w + 1) ≥ sc)]
    unfold usrl_sub_next_read
    dsimp only
    rw [getD_set_self hidxlt]
    dsimp only
    rw [if_neg (by omega : ¬ (w + 1 = 0 ∨ w + 1 < w + 1))]
    rw [if_neg (by omega : ¬ w + 1 > w + 1)]
    rw [if_neg (by simpa using hbuf : ¬ data.length > buf.length)]
    have htake : (writeBytes (slots.getD (seqIndex (w + 1) (sc - 1)) default).payload
        data).take data.length = data := by
      unfold writeBytes
      exact List.take_left' rfl
    rw [htake]
    rw [if_neg (by simp : ¬ (w + 1 ≠ w + 1))]
    rfl
  rw [hread]
  refine ⟨rfl, rfl, ?_, rfl, rfl⟩
  exact List.take_left' rfl

/-- C1 witness: a 2-slot SWMR ring of 32-byte slots; publisher 7 publishes
[1,2,3]; the subscriber reads back return value 3, bytes [1,2,3], pub_id 7. -/
theorem usrl_C1_roundtrip_witness :
    (usrl_pub_publish ⟨2, 32, 0, List.replicate 2 default⟩ 7 [1,2,3] 5).1 = 0 ∧
    (usrl_sub_next (usrl_pub_publish ⟨2, 32, 0, List.replicate 2 default⟩
      7 [1,2,3] 5).2 0 [9,9,9,9]).ret = ((3:Nat) : Int) ∧
    (usrl_sub_next (usrl_pub_publish ⟨2, 32, 0, List.replicate 2 default⟩
      7 [1,2,3] 5).2 0 [9,9,9,9]).buf.take 3 = [1,2,3] ∧
    (usrl_sub_next (usrl_pub_publish ⟨2, 32, 0, List.replicate 2 default⟩
      7 [1,2,3] 5).2 0 [9,9,9,9]).out_pub_id = some 7 ∧
    (usrl_sub_next (usrl_pub_publish ⟨2, 32, 0, List.replicate 2 default⟩
      7 [1,2,3] 5).2 0 [9,9,9,9]).last_seq = 0 + 1 :=
  usrl_C1_roundtrip ⟨2, 32, 0, List.replicate 2 default⟩ 7 [1,2,3] 5 [9,9,9,9] 1
    (by decide) (by decide) (by decide) (by decide) (by decide) (by decide) (by decide)

/-- C5 counterexample: a torn read detected after the overrun catch-up
branch sets `last_seq` to the re-loaded `w_head` (12), not to the value
loaded at the start of the call (10).  Ring of 2 slots; first `w_head` load
10, cursor 0, so the subscriber jumps to sequence 9 and re-loads `w_head` =
12; the slot holds sequence 9 but the post-copy reload returns 11. -/
theorem usrl_C5_counterexample :
    (usrl_sub_next_obs 2 10 12 (fun _ => ⟨⟨9, 0, 1, 3⟩, [42]⟩) (fun _ => 11)
      0 [0]).ret = 0 ∧
    (usrl_sub_next_obs 2 10 12 (fun _ => ⟨⟨9, 0, 1, 3⟩, [42]⟩) (fun _ => 11)
      0 [0]).last_seq = 12 ∧
    ¬ (usrl_sub_next_obs 2 10 12 (fun _ => ⟨⟨9, 0, 1, 3⟩, [42]⟩) (fun _ => 11)
      0 [0]).last_seq = 10 := by
  exact ⟨by decide, by decide, by decide⟩

/-- C3: PayloadTooLarge atomicity.  For both publish paths, a payload whose
length exceeds slot_size − sizeof(SlotHeader) makes the call return -2
(payload too large) with the ring state returned untouched: `w_head` is not
incremented (the size check precedes the fetch-add) and no slot byte is
written. -/
theorem usrl_C3_payload_too_large
    (st : RingState) (pub_id : Nat) (data : List Nat) (ts : Nat) (obs : Nat → Nat)
    (h24 : sizeofSlotHeader ≤ st.slot_size)
    (hss : st.slot_size < U32)
    (hbig : st.slot_size - sizeofSlotHeader < data.length) :
    usrl_pub_publish st pub_id data ts = (-2, st) ∧
    usrl_mwmr_pub_publish_obs st pub_id data ts obs = (-2, st) := by
  have hcap : slotCapacity st.slot_size = st.slot_size - sizeofSlotHeader :=
    slotCapacity_eq h24 (lt_trans hss (by norm_num [U32, U64]))
  have hcond : data.length > slotCapacity st.slot_size := by rw [hcap]; omega
  constructor
  · unfold usrl_pub_publish
    rw [if_pos hcond]
  · unfold usrl_mwmr_pub_publish_obs
    rw [if_pos hcond]

/-- C3 witness: a 9-byte payload into 32-byte slots (8-byte capacity) is
rejected by both publishers with the ring unchanged. -/
theorem usrl_C3_payload_too_large_witness :
    usrl_pub_publish ⟨2, 32, 0, List.replicate 2 default⟩ 7 (List.replicate 9 0) 5 =
      (-2, ⟨2, 32, 0, List.replicate 2 default⟩) ∧
    usrl_mwmr_pub_publish_obs ⟨2, 32, 0, List.replicate 2 default⟩ 7
      (List.replicate 9 0) 5 (fun _ => 0) =
      (-2, ⟨2, 32, 0, List.replicate 2 default⟩) :=
  usrl_C3_payload_too_large ⟨2, 32, 0, List.replicate 2 default⟩ 7
    (List.replicate 9 0) 5 (fun _ => 0) (by decide) (by decide) (by decide)

/-- C10 (implicit): a committed message with payload_len = 0 at the cursor
position makes `usrl_sub_next` return 0 — the same value it returns when no
message is available — while still advancing `last_seq` past the message;
an Empty call returns 0 with `last_seq` unchanged, so the caller cannot
distinguish the two outcomes from the return value. -/
theorem usrl_C10_zero_len
    (st : RingState) (last_seq : Nat) (buf : List Nat)
    (hlast : last_seq + 1 < U64)
    (hnext : last_seq + 1 ≤ st.w_head)
    (hgap : st.w_head - (last_seq + 1) < st.slot_count)
    (hseq : (st.slots.getD (seqIndex (last_seq + 1) (st.slot_count - 1)) default).hdr.seq
      = last_seq + 1)
    (hzero : (st.slots.getD (seqIndex (last_seq + 1) (st.slot_count - 1))
      default).hdr.payload_len = 0) :
    (usrl_sub_next st last_seq buf).ret = 0 ∧
    (usrl_sub_next st last_seq buf).last_seq = last_seq + 1 ∧
    ∀ last2 buf2, st.w_head < last2 + 1 → last2 + 1 < U64 →
      (usrl_sub_next st last2 buf2).ret = 0 ∧
      (usrl_sub_next st last2 buf2).last_seq = last2 := by
  have hmod : (last_seq + 1) % U64 = last_seq + 1 := Nat.mod_eq_of_lt hlast
  have hread : usrl_sub_next st last_seq buf =
      ⟨((st.slots.getD (seqIndex (last_seq + 1) (st.slot_count - 1)) default).hdr.payload_len : Int),
        last_seq + 1,
        writeBytes buf ((st.slots.getD (seqIndex (last_seq + 1) (st.slot_count - 1))
          default).payload.take
          (st.slots.getD (seqIndex (last_seq + 1) (st.slot_count - 1)) default).hdr.payload_len),
        some (st.slots.getD (seqIndex (last_seq + 1) (st.slot_count - 1)) default).hdr.pub_id⟩ := by
    unfold usrl_sub_next usrl_sub_next_obs
    dsimp only
    simp only [hmod]
    rw [if_neg (by omega : ¬ last_seq + 1 > st.w_head)]
    rw [if_neg (by omega : ¬ st.w_head - (last_seq + 1) ≥ st.slot_count)]
    unfold usrl_sub_next_read
    dsimp only
    rw [hseq]
    rw [if_neg (by omega : ¬ (last_seq + 1 = 0 ∨ last_seq + 1 < last_seq + 1))]
    rw [if_neg (by omega : ¬ last_seq + 1 > last_seq + 1)]
    rw [if_neg (by rw [hzero]; omega :
      ¬ (st.slots.getD (seqIndex (last_seq + 1) (st.slot_count - 1))
        default).hdr.payload_len > buf.length)]
    rw [if_neg (by simp : ¬ (last_seq + 1 ≠ last_seq + 1))]
  refine ⟨by rw [hread]; dsimp only; rw [hzero]; rfl, by rw [hread], ?_⟩
  intro last2 buf2 h1 h2
  have hmod2 : (last2 + 1) % U64 = last2 + 1 := Nat.mod_eq_of_lt h2
  have : usrl_sub_next st last2 buf2 = ⟨0, last2, buf2, none⟩ := by
    unfold usrl_sub_next usrl_sub_next_obs
    dsimp only
    simp only [hmod2]
    rw [if_pos (by omega : last2 + 1 > st.w_head)]
  rw [this]
  exact ⟨rfl, rfl⟩

/-- C10 witness: consuming a committed zero-byte message returns 0 and
advances the cursor to 1. -/
theorem usrl_C10_zero_len_witness :
    (usrl_sub_next ⟨2, 32, 1, [⟨⟨1, 5, 0, 7⟩, List.replicate 8 0⟩, default]⟩
      0 [3]).ret = 0 ∧
    (usrl_sub_next ⟨2, 32, 1, [⟨⟨1, 5, 0, 7⟩, List.replicate 8 0⟩, default]⟩
      0 [3]).last_seq = 0 + 1 :=
  ⟨(usrl_C10_zero_len ⟨2, 32, 1, [⟨⟨1, 5, 0, 7⟩, List.replicate 8 0⟩, default]⟩
      0 [3] (by decide) (by decide) (by decide) (by decide) (by decide)).1,
   (usrl_C10_zero_len ⟨2, 32, 1, [⟨⟨1, 5, 0, 7⟩, List.replicate 8 0⟩, default]⟩
      0 [3] (by decide) (by decide) (by decide) (by decide) (by decide)).2.1⟩


theorem mwmrSpinLoop_some_safe (obs : Nat → Nat) (sc commit : Nat) :
    ∀ fuel iter c, iter ≤ 100000 →
      mwmrSpinLoop obs sc commit iter fuel = some c →
      ∃ j, iter ≤ j ∧ j ≤ 100000 ∧ obs j = c ∧ slotSafe c commit sc = true := by
  intro fuel
  induction fuel with
  | zero => intro iter c _ h; simp [mwmrSpinLoop] at h
  | succ n ih =>
    intro iter c hiter h
    unfold mwmrSpinLoop at h
    by_cases hs : slotSafe (obs iter) commit sc
    · rw [if_pos hs] at h
      exact ⟨iter, le_refl _, hiter, Option.some.inj h, by rw [Option.some.inj h] at hs; exact hs⟩
    · rw [if_neg hs] at h
      by_cases ht : iter + 1 > 100000
      · rw [if_pos ht] at h; exact absurd h (by simp)
      · rw [if_neg ht] at h
        obtain ⟨j, hj1, hj2, hj3, hj4⟩ := ih (iter + 1) c (by omega) h
        exact ⟨j, by omega, hj2, hj3, hj4⟩

theorem mwmrSpinLoop_none_of_unsafe (obs : Nat → Nat) (sc commit : Nat) :
    ∀ fuel iter, iter ≤ 100000 →
      (∀ j, iter ≤ j → j ≤ 100000 → slotSafe (obs j) commit sc = false) →
      mwmrSpinLoop obs sc commit iter fuel = none := by
  intro fuel
  induction fuel with
  | zero => intro iter _ _; rfl
  | succ n ih =>
    intro iter hiter hall
    unfold mwmrSpinLoop
    rw [if_neg (by rw [hall iter (le_refl _) hiter]; simp)]
    by_cases ht : iter + 1 > 100000
    · rw [if_pos ht]
    · rw [if_neg ht]
      exact ih (iter + 1) (by omega) (fun j h1 h2 => hall j (by omega) h2)

/-- C2: the MWMR slot-safety gate.  After reserving
commit = fetch_add(w_head)+1, `usrl_mwmr_pub_publish` stores into its slot
only if some iteration j ≤ 100000 of the safety spin observed a `seq` value
that is 0 or belongs to a strictly earlier generation
(current/slot_count < commit/slot_count); and when no observation within
the 100,000-iteration cap satisfies the gate, the call returns -3 (Timeout)
with `w_head` already incremented and the slot array untouched, so the
reserved sequence is leaked (that slot's `seq` is never set to this
commit). -/
theorem usrl_C2_mwmr_gate
    (st : RingState) (pub_id : Nat) (data : List Nat) (ts : Nat) (obs : Nat → Nat)
    (hfit : ¬ data.length > slotCapacity st.slot_size) :
    ((usrl_mwmr_pub_publish_obs st pub_id data ts obs).1 = 0 →
      ∃ j, j ≤ 100000 ∧
        slotSafe (obs j) ((st.w_head + 1) % U64) st.slot_count = true) ∧
    ((∀ j, j ≤ 100000 → slotSafe (obs j) ((st.w_head + 1) % U64) st.slot_count = false) →
      usrl_mwmr_pub_publish_obs st pub_id data ts obs =
        (-3, { st with w_head := (st.w_head + 1) % U64 })) := by
  constructor
  · intro h
    unfold usrl_mwmr_pub_publish_obs at h
    rw [if_neg hfit] at h
    dsimp only at h
    rcases hm : mwmrSpin obs st.slot_count ((st.w_head + 1) % U64) with _ | c
    · rw [hm] at h; simp at h
    · obtain ⟨j, _, hj2, hj3, hj4⟩ :=
        mwmrSpinLoop_some_safe obs st.slot_count ((st.w_head + 1) % U64)
          100001 0 c (by omega) hm
      exact ⟨j, hj2, by rw [hj3]; exact hj4⟩
  · intro hall
    have hnone : mwmrSpin obs st.slot_count ((st.w_head + 1) % U64) = none :=
      mwmrSpinLoop_none_of_unsafe obs st.slot_count ((st.w_head + 1) % U64)
        100001 0 (by omega) (fun j _ h2 => hall j h2)
    unfold usrl_mwmr_pub_publish_obs
    rw [if_neg hfit]
    dsimp only
    rw [hnone]

/-- C2 witness: a 1-slot ring whose slot load always returns the same
generation's sequence never satisfies the gate, so the publish times out
with the sequence leaked. -/
theorem usrl_C2_mwmr_gate_witness :
    usrl_mwmr_pub_publish_obs ⟨1, 32, 0, List.replicate 1 default⟩ 7 [1] 5
      (fun _ => 1) =
      (-3, ⟨1, 32, (0 + 1) % U64, List.replicate 1 default⟩) :=
  (usrl_C2_mwmr_gate ⟨1, 32, 0, List.replicate 1 default⟩ 7 [1] 5 (fun _ => 1)
    (by decide)).2 (fun j _ => by decide)

/-- C5 amended: torn-read discard.  Whenever the `seq` value reloaded after
the payload copy differs from the value read before the copy, the copied
data is discarded (the call returns 0/Empty, not a message) and `last_seq`
is set to the most recently loaded `w_head` value — the line-249 re-load
when the overrun branch ran, otherwise the initial line-224 load; and no
call ever returns a message (positive return) whose post-read `seq` check
failed. -/
theorem usrl_C5_torn_read_discard
    (slot_count w1 w2 last_seq : Nat) (slotAt : Nat → Slot)
    (postSeqAt : Nat → Nat) (buf : List Nat)
    (hlast : last_seq + 1 < U64)
    (hne : last_seq + 1 ≤ w1)
    (hne2 : subEffNext slot_count w1 last_seq ≤ subEffHead slot_count w1 w2 last_seq)
    (hseq : (slotAt (seqIndex (subEffNext slot_count w1 last_seq)
      (slot_count - 1))).hdr.seq = subEffNext slot_count w1 last_seq)
    (hbuf : (slotAt (seqIndex (subEffNext slot_count w1 last_seq)
      (slot_count - 1))).hdr.payload_len ≤ buf.length)
    (hpost : postSeqAt (seqIndex (subEffNext slot_count w1 last_seq)
      (slot_count - 1)) ≠ subEffNext slot_count w1 last_seq) :
    ((usrl_sub_next_obs slot_count w1 w2 slotAt postSeqAt last_seq buf).ret = 0 ∧
     (usrl_sub_next_obs slot_count w1 w2 slotAt postSeqAt last_seq buf).last_seq
       = subEffHead slot_count w1 w2 last_seq) ∧
    (∀ sc v1 v2 sA pA ls bf,
      0 < (usrl_sub_next_obs sc v1 v2 sA pA ls bf).ret →
      pA (seqIndex (subEffNext sc v1 ls) (sc - 1))
        = (sA (seqIndex (subEffNext sc v1 ls) (sc - 1))).hdr.seq) := by
  constructor
  ·   have hmod : (last_seq + 1) % U64 = last_seq + 1 := Nat.mod_eq_of_lt hlast
      by_cases hj : subJump slot_count w1 last_seq = true
      · have hj2 : slot_count ≤ w1 - (last_seq + 1) := by
          simpa [subJump, hmod] using hj
        have heffn : subEffNext slot_count w1 last_seq = w1 - slot_count + 1 := by
          unfold subEffNext
          rw [if_pos hj]
        have heffh : subEffHead slot_count w1 w2 last_seq = w2 := by
          unfold subEffHead
          rw [if_pos hj]
        rw [heffn] at hseq hbuf hpost
        rw [heffn, heffh] at hne2
        have hres : usrl_sub_next_obs slot_count w1 w2 slotAt postSeqAt last_seq buf =
            ⟨0, w2, writeBytes buf ((slotAt (seqIndex (w1 - slot_count + 1)
                (slot_count - 1))).payload.take
                (slotAt (seqIndex (w1 - slot_count + 1)
                  (slot_count - 1))).hdr.payload_len),
              some (slotAt (seqIndex (w1 - slot_count + 1)
                (slot_count - 1))).hdr.pub_id⟩ := by
          unfold usrl_sub_next_obs
          dsimp only
          simp only [hmod]
          rw [if_neg (by omega : ¬ last_seq + 1 > w1)]
          rw [if_pos (by omega : w1 - (last_seq + 1) ≥ slot_count)]
          rw [if_neg (by omega : ¬ w1 - slot_count + 1 > w2)]
          unfold usrl_sub_next_read
          dsimp only
          rw [hseq]
          rw [if_neg (by omega : ¬ (w1 - slot_count + 1 = 0 ∨
            w1 - slot_count + 1 < w1 - slot_count + 1))]
          rw [if_neg (by omega : ¬ w1 - slot_count + 1 > w1 - slot_count + 1)]
          rw [if_neg (by omega : ¬ (slotAt (seqIndex (w1 - slot_count + 1)
            (slot_count - 1))).hdr.payload_len > buf.length)]
          rw [if_pos hpost]
        rw [hres, heffh]
        exact ⟨rfl, rfl⟩
      · have hj2 : ¬ slot_count ≤ w1 - (last_seq + 1) := by
          intro hc
          exact hj (by simpa [subJump, hmod] using hc)
        have heffn : subEffNext slot_count w1 last_seq = last_seq + 1 := by
          unfold subEffNext
          rw [if_neg hj, hmod]
        have heffh : subEffHead slot_count w1 w2 last_seq = w1 := by
          unfold subEffHead
          rw [if_neg hj]
        rw [heffn] at hseq hbuf hpost
        rw [heffn, heffh] at hne2
        have hres : usrl_sub_next_obs slot_count w1 w2 slotAt postSeqAt last_seq buf =
            ⟨0, w1, writeBytes buf ((slotAt (seqIndex (last_seq + 1)
                (slot_count - 1))).payload.take
                (slotAt (seqIndex (last_seq + 1)
                  (slot_count - 1))).hdr.payload_len),
              some (slotAt (seqIndex (last_seq + 1)
                (slot_count - 1))).hdr.pub_id⟩ := by
          unfold usrl_sub_next_obs
          dsimp only
          simp only [hmod]
          rw [if_neg (by omega : ¬ last_seq + 1 > w1)]
          rw [if_neg (by omega : ¬ w1 - (last_seq + 1) ≥ slot_count)]
          unfold usrl_sub_next_read
          dsimp only
          rw [hseq]
          rw [if_neg (by omega : ¬ (last_seq + 1 = 0 ∨ last_seq + 1 < last_seq + 1))]
          rw [if_neg (by omega : ¬ last_seq + 1 > last_seq + 1)]
          rw [if_neg (by omega : ¬ (slotAt (seqIndex (last_seq + 1)
            (slot_count - 1))).hdr.payload_len > buf.length)]
          rw [if_pos hpost]
        rw [hres, heffh]
        exact ⟨rfl, rfl⟩
  ·     intro sc v1 v2 sA pA ls bf h
        unfold usrl_sub_next_obs usrl_sub_next_read at h
        dsimp only at h
        by_cases h1 : (ls + 1) % U64 > v1
        · rw [if_pos h1] at h
          norm_num at h
        · rw [if_neg h1] at h
          by_cases h2 : v1 - (ls + 1) % U64 ≥ sc
          · have heffn : subEffNext sc v1 ls = v1 - sc + 1 := by
              unfold subEffNext subJump
              rw [if_pos (by simpa using h2)]
            rw [if_pos h2] at h
            by_cases h3 : v1 - sc + 1 > v2
            · rw [if_pos h3] at h; norm_num at h
            · rw [if_neg h3] at h
              rw [heffn]
              by_cases h4 : (sA (seqIndex (v1 - sc + 1) (sc - 1))).hdr.seq = 0 ∨
                  (sA (seqIndex (v1 - sc + 1) (sc - 1))).hdr.seq < v1 - sc + 1
              · rw [if_pos h4] at h; norm_num at h
              · rw [if_neg h4] at h
                by_cases h5 : (sA (seqIndex (v1 - sc + 1) (sc - 1))).hdr.seq > v1 - sc + 1
                · rw [if_pos h5] at h; norm_num at h
                · rw [if_neg h5] at h
                  by_cases h6 : (sA (seqIndex (v1 - sc + 1) (sc - 1))).hdr.payload_len > bf.length
                  · rw [if_pos h6] at h; norm_num at h
                  · rw [if_neg h6] at h
                    by_cases h7 : pA (seqIndex (v1 - sc + 1) (sc - 1)) ≠
                        (sA (seqIndex (v1 - sc + 1) (sc - 1))).hdr.seq
                    · rw [if_pos h7] at h; norm_num at h
                    · exact not_not.mp h7
          · have heffn : subEffNext sc v1 ls = (ls + 1) % U64 := by
              unfold subEffNext subJump
              rw [if_neg (by simpa using h2)]
            rw [if_neg h2] at h
            rw [heffn]
            by_cases h4 : (sA (seqIndex ((ls + 1) % U64) (sc - 1))).hdr.seq = 0 ∨
                (sA (seqIndex ((ls + 1) % U64) (sc - 1))).hdr.seq < (ls + 1) % U64
            · rw [if_pos h4] at h; norm_num at h
            · rw [if_neg h4] at h
              by_cases h5 : (sA (seqIndex ((ls + 1) % U64) (sc - 1))).hdr.seq > (ls + 1) % U64
              · rw [if_pos h5] at h; norm_num at h
              · rw [if_neg h5] at h
                by_cases h6 : (sA (seqIndex ((ls + 1) % U64) (sc - 1))).hdr.payload_len > bf.length
                · rw [if_pos h6] at h; norm_num at h
                · rw [if_neg h6] at h
                  by_cases h7 : pA (seqIndex ((ls + 1) % U64) (sc - 1)) ≠
                      (sA (seqIndex ((ls + 1) % U64) (sc - 1))).hdr.seq
                  · rw [if_pos h7] at h; norm_num at h
                  · exact not_not.mp h7

/-- C5 witness: the concrete torn read of the counterexample instance —
the discard returns Empty with `last_seq` fast-forwarded to the re-loaded
head 12. -/
theorem usrl_C5_torn_read_discard_witness :
    (usrl_sub_next_obs 2 10 12 (fun _ => ⟨⟨9, 0, 1, 3⟩, [42]⟩) (fun _ => 11)
      0 [0]).ret = 0 ∧
    (usrl_sub_next_obs 2 10 12 (fun _ => ⟨⟨9, 0, 1, 3⟩, [42]⟩) (fun _ => 11)
      0 [0]).last_seq = subEffHead 2 10 12 0 :=
  (usrl_C5_torn_read_discard 2 10 12 0 (fun _ => ⟨⟨9, 0, 1, 3⟩, [42]⟩)
    (fun _ => 11) [0] (by decide) (by decide) (by decide) (by decide)
    (by decide) (by decide)).1


/-- Writing a slot with the freshly reserved sequence w+1 either leaves a
slot unchanged or strictly increases its `seq`, and re-establishes the bound
seq ≤ w_head. -/
theorem set_slot_mono (slots : List Slot) (w idx : Nat) (a : Slot)
    (hseq : a.hdr.seq = w + 1)
    (hinv : ∀ i, (slots.getD i default).hdr.seq ≤ w) :
    (∀ i, (slots.set idx a).getD i default = slots.getD i default ∨
      (slots.getD i default).hdr.seq < ((slots.set idx a).getD i default).hdr.seq) ∧
    (∀ i, ((slots.set idx a).getD i default).hdr.seq ≤ w + 1) := by
  constructor
  · intro i
    by_cases hi : idx = i
    · subst hi
      by_cases hlt : idx < slots.length
      · right
        rw [getD_set_self hlt]
        rw [hseq]
        exact Nat.lt_succ_of_le (hinv idx)
      · left
        rw [List.set_eq_of_length_le (by omega)]
    · left
      exact getD_set_ne hi a default
  · intro i
    by_cases hi : idx = i
    · subst hi
      by_cases hlt : idx < slots.length
      · rw [getD_set_self hlt, hseq]
      · rw [List.set_eq_of_length_le (by omega)]
        exact Nat.le_succ_of_le (hinv idx)
    · rw [getD_set_ne hi a default]
      exact Nat.le_succ_of_le (hinv i)

/-- One complete operation never decreases `w_head` (it adds at most 1) and
changes a slot only by strictly increasing its `seq`. -/
theorem applyOp_step (st : RingState) (op : RingOp)
    (hinv : ∀ i, (st.slots.getD i default).hdr.seq ≤ st.w_head)
    (hw : st.w_head + 1 < U64) :
    st.w_head ≤ (applyOp st op).w_head ∧
    (applyOp st op).w_head ≤ st.w_head + 1 ∧
    (∀ i, (applyOp st op).slots.getD i default = st.slots.getD i default ∨
      (st.slots.getD i default).hdr.seq < ((applyOp st op).slots.getD i default).hdr.seq) ∧
    (∀ i, ((applyOp st op).slots.getD i default).hdr.seq ≤ (applyOp st op).w_head) := by
  have hmod : (st.w_head + 1) % U64 = st.w_head + 1 := Nat.mod_eq_of_lt hw
  obtain ⟨sc, ss, w, slots⟩ := st
  simp only at hinv hw hmod
  cases op with
  | subRead ls bf =>
    exact ⟨le_refl _, Nat.le_succ _, fun i => Or.inl rfl, hinv⟩
  | swmr p d t =>
    simp only [applyOp]
    by_cases hbig : d.length > slotCapacity ss
    · unfold usrl_pub_publish
      rw [if_pos hbig]
      exact ⟨le_refl _, Nat.le_succ _, fun i => Or.inl rfl, hinv⟩
    · unfold usrl_pub_publish
      rw [if_neg hbig]
      dsimp only
      simp only [hmod]
      obtain ⟨hm, hc⟩ := set_slot_mono slots w (seqIndex (w + 1) (sc - 1))
        ⟨⟨w + 1, t, d.length, p⟩, writeBytes
          (slots.getD (seqIndex (w + 1) (sc - 1)) default).payload d⟩ rfl hinv
      exact ⟨Nat.le_succ _, le_refl _, hm, hc⟩
  | mwmr p d t =>
    simp only [applyOp]
    unfold usrl_mwmr_pub_publish usrl_mwmr_pub_publish_obs
    by_cases hbig : d.length > slotCapacity ss
    · rw [if_pos hbig]
      exact ⟨le_refl _, Nat.le_succ _, fun i => Or.inl rfl, hinv⟩
    · rw [if_neg hbig]
      dsimp only
      rcases hspin : mwmrSpin _ sc ((w + 1) % U64) with _ | c
      · dsimp only
        simp only [hmod]
        exact ⟨Nat.le_succ _, le_refl _, fun i => by simp,
          fun i => Nat.le_succ_of_le (hinv i)⟩
      · dsimp only
        simp only [hmod]
        obtain ⟨hm, hc⟩ := set_slot_mono slots w (seqIndex (w + 1) (sc - 1))
          ⟨⟨w + 1, t, d.length, p⟩, writeBytes
            (slots.getD (seqIndex (w + 1) (sc - 1)) default).payload d⟩ rfl hinv
        exact ⟨Nat.le_succ _, le_refl _, hm, hc⟩


/-- Every slot of a freshly built ring has `seq = 0`. -/
theorem initSlots_seq (sc ssz i : Nat) :
    ((initSlots sc ssz).getD i default).hdr.seq = 0 := by
  unfold initSlots
  rw [List.getD_eq_getElem?_getD]
  rcases Nat.lt_or_ge i sc with h | h
  · simp [List.getElem?_replicate, h]
  · simp [List.getElem?_replicate, show ¬ i < sc by omega]
    rfl

/-- Along any operation sequence from the built state, every slot's `seq`
stays bounded by `w_head`, and `w_head` grows by at most one per operation. -/
theorem applyOps_inv : ∀ (ops : List RingOp) (st : RingState),
    (∀ i, (st.slots.getD i default).hdr.seq ≤ st.w_head) →
    st.w_head + ops.length < U64 →
    (∀ i, ((applyOps st ops).slots.getD i default).hdr.seq
      ≤ (applyOps st ops).w_head) ∧
    (applyOps st ops).w_head ≤ st.w_head + ops.length := by
  intro ops
  induction ops with
  | nil =>
    intro st hinv hb
    exact ⟨hinv, Nat.le_add_right _ _⟩
  | cons op rest ih =>
    intro st hinv hb
    simp only [List.length_cons] at hb
    have hw : st.w_head + 1 < U64 := by omega
    obtain ⟨h1, h2, h3, h4⟩ := applyOp_step st op hinv hw
    have hstep : applyOps st (op :: rest) = applyOps (applyOp st op) rest := rfl
    obtain ⟨ha, hbnd⟩ := ih (applyOp st op) h4 (by omega)
    rw [hstep]
    refine ⟨ha, ?_⟩
    simp only [List.length_cons]
    omega


/-- C4 amended: in every state reachable by a sequence of complete build /
SWMR publish / MWMR publish / subscriber-next operations on a ring (fewer
than 2^64 of them, so the 64-bit counter cannot wrap), the topic's `w_head`
never decreases, and each slot either stays unchanged or has its `seq`
strictly increased — non-zero `seq` values observed at one slot are strictly
increasing.  (When MWMR publish calls overlap at instruction granularity
this fails: see the counterexample, where two writers both pass the
slot-safety gate on the same slot and commit out of order.) -/
theorem usrl_C4_monotonic (sc ssz : Nat) (ops : List RingOp) (op : RingOp)
    (hops : ops.length + 1 < U64) :
    (applyOps (usrl_ring_init sc ssz) ops).w_head
      ≤ (applyOp (applyOps (usrl_ring_init sc ssz) ops) op).w_head ∧
    ∀ i, (applyOp (applyOps (usrl_ring_init sc ssz) ops) op).slots.getD i default
        = (applyOps (usrl_ring_init sc ssz) ops).slots.getD i default ∨
      ((applyOps (usrl_ring_init sc ssz) ops).slots.getD i default).hdr.seq
        < ((applyOp (applyOps (usrl_ring_init sc ssz) ops) op).slots.getD i
            default).hdr.seq := by
  have hinv0 : ∀ i, ((usrl_ring_init sc ssz).slots.getD i default).hdr.seq
      ≤ (usrl_ring_init sc ssz).w_head := by
    intro i
    show ((initSlots sc ssz).getD i default).hdr.seq ≤ 0
    rw [initSlots_seq]
  have hinit : (usrl_ring_init sc ssz).w_head = 0 := rfl
  obtain ⟨hinv, hbnd⟩ := applyOps_inv ops (usrl_ring_init sc ssz) hinv0
    (by rw [hinit]; omega)
  rw [hinit] at hbnd
  have hw : (applyOps (usrl_ring_init sc ssz) ops).w_head + 1 < U64 := by omega
  obtain ⟨h1, _, h3, _⟩ := applyOp_step _ op hinv hw
  exact ⟨h1, h3⟩

/-- C4 witness: one SWMR publish then an MWMR publish on a fresh 2-slot
ring: `w_head` does not decrease and slot 0 only moves upward. -/
theorem usrl_C4_monotonic_witness :
    ((applyOps (usrl_ring_init 2 32) [.swmr 7 [1] 5]).w_head
      ≤ (applyOp (applyOps (usrl_ring_init 2 32) [.swmr 7 [1] 5])
        (.mwmr 8 [2] 6)).w_head) ∧
    ((applyOp (applyOps (usrl_ring_init 2 32) [.swmr 7 [1] 5])
        (.mwmr 8 [2] 6)).slots.getD 0 default
      = (applyOps (usrl_ring_init 2 32) [.swmr 7 [1] 5]).slots.getD 0 default ∨
      ((applyOps (usrl_ring_init 2 32) [.swmr 7 [1] 5]).slots.getD 0
        default).hdr.seq
      < ((applyOp (applyOps (usrl_ring_init 2 32) [.swmr 7 [1] 5])
          (.mwmr 8 [2] 6)).slots.getD 0 default).hdr.seq) :=
  ⟨(usrl_C4_monotonic 2 32 [.swmr 7 [1] 5] (.mwmr 8 [2] 6) (by norm_num [U64])).1,
   (usrl_C4_monotonic 2 32 [.swmr 7 [1] 5] (.mwmr 8 [2] 6) (by norm_num [U64])).2 0⟩

/-- C4 counterexample (instruction-level interleaving): on a 1-slot MWMR
ring, writers A (commit 1) and B (commit 2) both load `seq = 0` and pass
the safety gate before either stores; B commits first (slot seq becomes 2),
then A's store drops it back to 1 — the 6-op trace extends the 5-op trace
by a single store step, and the slot's `seq` changes without increasing,
refuting the claim for arbitrary interleavings. -/
theorem usrl_C4_counterexample :
    ((applyFineOps ⟨usrl_ring_init 1 32, []⟩
      [.reserve, .reserve, .gate 0, .gate 1,
       .store 1 9 [7] 0]).ring.slots.getD 0 default).hdr.seq = 2 ∧
    ((applyFineOps ⟨usrl_ring_init 1 32, []⟩
      [.reserve, .reserve, .gate 0, .gate 1,
       .store 1 9 [7] 0, .store 0 8 [6] 0]).ring.slots.getD 0 default).hdr.seq = 1 ∧
    applyFineOps ⟨usrl_ring_init 1 32, []⟩
      [.reserve, .reserve, .gate 0, .gate 1, .store 1 9 [7] 0, .store 0 8 [6] 0]
      = applyFineOp (applyFineOps ⟨usrl_ring_init 1 32, []⟩
        [.reserve, .reserve, .gate 0, .gate 1, .store 1 9 [7] 0])
        (.store 0 8 [6] 0) ∧
    ¬ (((applyFineOps ⟨usrl_ring_init 1 32, []⟩
      [.reserve, .reserve, .gate 0, .gate 1,
       .store 1 9 [7] 0]).ring.slots.getD 0 default).hdr.seq
      < ((applyFineOps ⟨usrl_ring_init 1 32, []⟩
      [.reserve, .reserve, .gate 0, .gate 1,
       .store 1 9 [7] 0, .store 0 8 [6] 0]).ring.slots.getD 0 default).hdr.seq) ∧
    ¬ ((applyFineOps ⟨usrl_ring_init 1 32, []⟩
      [.reserve, .reserve, .gate 0, .gate 1,
       .store 1 9 [7] 0, .store 0 8 [6] 0]).ring.slots.getD 0 default
      = (applyFineOps ⟨usrl_ring_init 1 32, []⟩
      [.reserve, .reserve, .gate 0, .gate 1,
       .store 1 9 [7] 0]).ring.slots.getD 0 default) := by
  exact ⟨by decide, by decide, by decide, by decide, by decide⟩


end USRL
